import Mathlib

/-!
# Verification of the systray exit-node engine (cmd/systray/systray.go)

A shallow embedding of the state-reconciliation engine of the Tailscale
systray application, together with proofs about it:

* `countryFlag` — the emoji-flag conversion (bytes → regional-indicator runes);
* `newMullvadPeers` — the taxonomy builder grouping exit-node peers by
  country code and city code, tracking the best (highest-priority) peer per
  city and per country;
* `renderExitNodeMenu` — the menu-rendering pass of `rebuildExitNodeMenu`,
  modelled as a pure function from the status snapshot (plus the externally
  fetched exit-node suggestion) to a render plan; a `none` result models a
  nil-pointer panic;
* the event-loop dispatch on state changes and on exit-node selections, and
  the IPN-bus watcher's per-iteration retry/fatal policy.

Go maps (`status.Peer`, the country and city maps) are modelled as lists:
`status.Peer` as the list of peers in status order, and the taxonomy maps as
association lists updated in insertion order (the Go maps' contents are the
same; Go's iteration order is unspecified, which only affects ties that the
source itself leaves unspecified).
-/

namespace Systray

/-- `tailcfg.Location` of a peer: country/city codes and names plus the
integer priority used to pick a preferred peer. -/
structure Location where
  countryCode : String
  country : String
  cityCode : String
  city : String
  priority : Int
  deriving Repr, DecidableEq

/-- The fields of `ipnstate.PeerStatus` used by the engine. `location = none`
models a nil `Location` pointer. -/
structure PeerStatus where
  id : String
  dnsName : String
  online : Bool
  exitNodeOption : Bool
  location : Option Location
  deriving Repr, DecidableEq

/-- The active exit node as reported in `ipnstate.Status.ExitNodeStatus`. -/
structure ExitNodeStatusInfo where
  id : String
  deriving Repr, DecidableEq

/-- The fields of the self peer used by the engine; `capMap` is the list of
capability keys of `Self.CapMap`. -/
structure SelfStatus where
  hostName : String
  capMap : List String
  deriving Repr, DecidableEq

/-- `ipnstate.Status` as used by the engine. `self = none` models a nil
`Self` pointer; `exitNodeStatus = none` a nil `ExitNodeStatus`. `peer` is
the peer map's values in status order. -/
structure Status where
  self : Option SelfStatus
  exitNodeStatus : Option ExitNodeStatusInfo
  peer : List PeerStatus
  deriving Repr, DecidableEq

/-! ## countryFlag

Strings are byte sequences in Go; `countryFlag` inspects the two bytes of
its argument. We model the input as the list of byte values and the output
as the list of rune code points. -/

/-- One iteration of `countryFlag`'s loop: lowercase the byte with `| 32`,
fail unless the result is in `'a'..'z'`, and produce the regional-indicator
rune. -/
def flagRune (b : Nat) : Option Nat :=
  let low := b.lor 32
  if low < 97 ∨ 122 < low then none
  else some (0x1F1E6 + (low - 97))

/-- `countryFlag` from the source: empty unless the input is exactly two
bytes, each an ASCII letter after `| 32` lowercasing. -/
def countryFlag (code : List Nat) : List Nat :=
  match code with
  | [b0, b1] =>
    match flagRune b0, flagRune b1 with
    | some r0, some r1 => [r0, r1]
    | _, _ => []
  | _ => []

/-- ASCII-lowercase a byte, as `strings.ToLower` does on ASCII input. -/
def lowerByte (b : Nat) : Nat :=
  if 65 ≤ b ∧ b ≤ 90 then b + 32 else b

/-- A byte that is an ASCII letter, either case. -/
def isAsciiLetter (b : Nat) : Prop :=
  (65 ≤ b ∧ b ≤ 90) ∨ (97 ≤ b ∧ b ≤ 122)

instance (b : Nat) : Decidable (isAsciiLetter b) := by
  unfold isAsciiLetter; infer_instance


set_option maxRecDepth 4096 in
theorem flagRune_lower (b : Nat) (h : b < 256) :
    flagRune (lowerByte b) = flagRune b := by
  revert b; decide

set_option maxRecDepth 4096 in
theorem flagRune_isSome_iff (b : Nat) (h : b < 256) :
    (flagRune b).isSome ↔ isAsciiLetter b := by
  revert b; decide

set_option maxRecDepth 4096 in
theorem flagRune_letter (b : Nat) (h : b < 256) (hl : isAsciiLetter b) :
    flagRune b = some (0x1F1E6 + (lowerByte b - 97)) := by
  revert b; decide

/-- **C10.** `countryFlag` is total and case-insensitive: it is empty unless
the input is exactly two bytes, each an ASCII letter of either case, in
which case it yields the two regional-indicator runes of the lowercased
letters; and it is invariant under ASCII lowercasing of its input. -/
theorem countryFlag_total_case_insensitive (code : List Nat) (h : ∀ b ∈ code, b < 256) :
    countryFlag (code.map lowerByte) = countryFlag code ∧
    (countryFlag code ≠ [] ↔
      ∃ b0 b1, code = [b0, b1] ∧ isAsciiLetter b0 ∧ isAsciiLetter b1) ∧
    (∀ b0 b1, code = [b0, b1] → isAsciiLetter b0 → isAsciiLetter b1 →
      countryFlag code = [0x1F1E6 + (lowerByte b0 - 97), 0x1F1E6 + (lowerByte b1 - 97)]) := by
  rcases code with _ | ⟨b0, _ | ⟨b1, _ | ⟨b2, rest⟩⟩⟩
  · refine ⟨rfl, ?_, ?_⟩
    · simp [countryFlag]
    · intro b0 b1 hc; simp at hc
  · refine ⟨rfl, ?_, ?_⟩
    · simp [countryFlag]
    · intro c0 c1 hc; simp at hc
  · have h0 : b0 < 256 := h b0 (by simp)
    have h1 : b1 < 256 := h b1 (by simp)
    refine ⟨?_, ?_, ?_⟩
    · simp only [List.map]
      simp [countryFlag, flagRune_lower b0 h0, flagRune_lower b1 h1]
    · constructor
      · intro hne
        refine ⟨b0, b1, rfl, ?_, ?_⟩
        · rw [← flagRune_isSome_iff b0 h0]
          by_contra hn
          rw [Option.not_isSome_iff_eq_none] at hn
          simp [countryFlag, hn] at hne
        · rw [← flagRune_isSome_iff b1 h1]
          by_contra hn
          rw [Option.not_isSome_iff_eq_none] at hn
          simp [countryFlag, hn] at hne
      · rintro ⟨c0, c1, hc, hl0, hl1⟩
        obtain ⟨rfl, rfl⟩ : b0 = c0 ∧ b1 = c1 := by simpa using hc
        simp [countryFlag, flagRune_letter _ h0 hl0, flagRune_letter _ h1 hl1]
    · rintro c0 c1 hc hl0 hl1
      obtain ⟨rfl, rfl⟩ : b0 = c0 ∧ b1 = c1 := by simpa using hc
      simp [countryFlag, flagRune_letter _ h0 hl0, flagRune_letter _ h1 hl1]
  · refine ⟨rfl, ?_, ?_⟩
    · simp [countryFlag]
    · intro c0 c1 hc; simp at hc

/-- Witness for `countryFlag_total_case_insensitive` at the concrete input
"US" (bytes 85, 83): the flag is the two regional indicators of "us". -/
theorem countryFlag_total_case_insensitive_witness :
    countryFlag (List.map lowerByte [85, 83]) = countryFlag [85, 83] ∧
    countryFlag [85, 83] = [127482, 127480] :=
  ⟨(countryFlag_total_case_insensitive [85, 83] (by decide)).1,
    (countryFlag_total_case_insensitive [85, 83] (by decide)).2.2 85 83 rfl
      (by decide) (by decide) |>.trans (by decide)⟩


/-! ## Taxonomy builder (`newMullvadPeers`)

The Go country and city maps are modelled as association lists in insertion
order; `alistFind`/`alistSet` are map lookup and insert-or-replace. -/

def alistFind {α : Type} (k : String) : List (String × α) → Option α
  | [] => none
  | (k', v) :: rest => if k' = k then some v else alistFind k rest

def alistSet {α : Type} (k : String) (v : α) : List (String × α) → List (String × α)
  | [] => [(k, v)]
  | (k', v') :: rest => if k' = k then (k, v) :: rest else (k', v') :: alistSet k v rest

structure MvCity where
  name : String
  best : Option PeerStatus
  peers : List PeerStatus
  deriving Repr, DecidableEq

structure MvCountry where
  code : String
  name : String
  best : Option PeerStatus
  cities : List (String × MvCity)
  deriving Repr, DecidableEq

structure MullvadPeers where
  countries : List (String × MvCountry)
  deriving Repr, DecidableEq

def locPriority (ps : PeerStatus) : Int :=
  match ps.location with
  | some l => l.priority
  | none => 0

def bestUpd (cur : Option PeerStatus) (ps : PeerStatus) : Option PeerStatus :=
  match cur with
  | none => some ps
  | some b => if locPriority ps > locPriority b then some ps else some b

def mvStep (countries : List (String × MvCountry)) (ps : PeerStatus) :
    List (String × MvCountry) :=
  match ps.location with
  | none => countries
  | some loc =>
    if ps.exitNodeOption then
      let country :=
        match alistFind loc.countryCode countries with
        | some c => c
        | none => { code := loc.countryCode, name := loc.country, best := none, cities := [] }
      let city :=
        match alistFind loc.cityCode country.cities with
        | some c => c
        | none => { name := loc.city, best := none, peers := [] }
      let c2 : MvCity := { city with peers := city.peers ++ [ps], best := bestUpd city.best ps }
      let country2 : MvCountry :=
        { country with cities := alistSet loc.cityCode c2 country.cities,
                       best := bestUpd country.best ps }
      alistSet loc.countryCode country2 countries
    else countries

def newMullvadPeers (status : Status) : MullvadPeers :=
  ⟨status.peer.foldl mvStep []⟩

def cityPeersIn (countries : List (String × MvCountry)) (cc kc : String) : List PeerStatus :=
  match alistFind cc countries with
  | none => []
  | some country =>
    match alistFind kc country.cities with
    | none => []
    | some city => city.peers

theorem alistFind_alistSet_self {α : Type} (k : String) (v : α) (l : List (String × α)) :
    alistFind k (alistSet k v l) = some v := by
  induction l with
  | nil => simp [alistSet, alistFind]
  | cons e rest ih =>
    obtain ⟨k', v'⟩ := e
    by_cases h : k' = k
    · simp [alistSet, alistFind, h]
    · simp [alistSet, alistFind, h, ih]

theorem alistFind_alistSet_ne {α : Type} (k k' : String) (v : α) (l : List (String × α))
    (h : k' ≠ k) : alistFind k' (alistSet k v l) = alistFind k' l := by
  induction l with
  | nil => simp [alistSet, alistFind, Ne.symm h]
  | cons e rest ih =>
    obtain ⟨k0, v0⟩ := e
    by_cases h0 : k0 = k
    · subst h0
      simp [alistSet, alistFind, Ne.symm h]
    · simp [alistSet, alistFind, h0, ih]

theorem mem_cityPeersIn_mvStep (acc : List (String × MvCountry)) (q p : PeerStatus)
    (cc kc : String) :
    p ∈ cityPeersIn (mvStep acc q) cc kc ↔
      p ∈ cityPeersIn acc cc kc ∨
        (p = q ∧ q.exitNodeOption = true ∧
          ∃ loc, q.location = some loc ∧ loc.countryCode = cc ∧ loc.cityCode = kc) := by
  rcases hloc : q.location with _ | loc
  · simp [mvStep, hloc]
  · by_cases hopt : q.exitNodeOption = true
    · simp only [mvStep, hloc, hopt, if_true]
      by_cases hcc : loc.countryCode = cc
      · subst hcc
        by_cases hkc : loc.cityCode = kc
        · subst hkc
          rcases hfc : alistFind loc.countryCode acc with _ | country
          · simp [cityPeersIn, hfc, alistFind_alistSet_self, alistFind, hloc, hopt, or_comm]
          · rcases hfk : alistFind loc.cityCode country.cities with _ | city
            · simp [cityPeersIn, hfc, hfk, alistFind_alistSet_self, hloc, hopt, or_comm]
            · simp [cityPeersIn, hfc, hfk, alistFind_alistSet_self, hloc, hopt, or_comm]
        · rcases hfc : alistFind loc.countryCode acc with _ | country
          · simp [cityPeersIn, hfc, alistFind_alistSet_self,
                  alistFind_alistSet_ne _ _ _ _ (Ne.symm hkc), alistFind, hkc, hloc, hopt]
          · simp [cityPeersIn, hfc, alistFind_alistSet_self,
                  alistFind_alistSet_ne _ _ _ _ (Ne.symm hkc), hkc, hloc, hopt]
      · simp [cityPeersIn, alistFind_alistSet_ne _ _ _ _ (Ne.symm hcc), hcc, hloc, hopt]
    · simp [mvStep, hloc, hopt]

theorem mem_cityPeersIn_foldl (l : List PeerStatus) (acc : List (String × MvCountry))
    (cc kc : String) (p : PeerStatus) :
    p ∈ cityPeersIn (l.foldl mvStep acc) cc kc ↔
      p ∈ cityPeersIn acc cc kc ∨
        (p ∈ l ∧ p.exitNodeOption = true ∧
          ∃ loc, p.location = some loc ∧ loc.countryCode = cc ∧ loc.cityCode = kc) := by
  induction l generalizing acc with
  | nil => simp
  | cons q rest ih =>
    rw [List.foldl_cons, ih, mem_cityPeersIn_mvStep]
    constructor
    · rintro ((h | ⟨rfl, h2, h3⟩) | ⟨hm, h2, h3⟩)
      · exact Or.inl h
      · exact Or.inr ⟨List.mem_cons_self _ _, h2, h3⟩
      · exact Or.inr ⟨List.mem_cons_of_mem _ hm, h2, h3⟩
    · rintro (h | ⟨hm, h2, h3⟩)
      · exact Or.inl (Or.inl h)
      · rcases List.mem_cons.mp hm with rfl | hm'
        · exact Or.inl (Or.inr ⟨rfl, h2, h3⟩)
        · exact Or.inr ⟨hm', h2, h3⟩

def cityPeers (mp : MullvadPeers) (cc kc : String) : List PeerStatus :=
  cityPeersIn mp.countries cc kc

theorem mem_cityPeers_iff (status : Status) (cc kc : String) (p : PeerStatus) :
    p ∈ cityPeers (newMullvadPeers status) cc kc ↔
      (p ∈ status.peer ∧ p.exitNodeOption = true ∧
        ∃ loc, p.location = some loc ∧ loc.countryCode = cc ∧ loc.cityCode = kc) := by
  rw [cityPeers, newMullvadPeers, mem_cityPeersIn_foldl]
  simp [cityPeersIn, alistFind]

/-- **C1.** The taxonomy grouping partitions the eligible located peers:
a peer is in the (country code, city code) bucket exactly when it occurs in
the status, is exit-node-eligible, and carries a location with those codes.
Hence every eligible located peer lands in the one bucket named by its own
location, ineligible or unlocated peers land in no bucket, and the union of
all city peer lists is the set of eligible located peers of the input. -/
theorem newMullvadPeers_partitions (status : Status) (cc kc : String) (p : PeerStatus) :
    p ∈ cityPeers (newMullvadPeers status) cc kc ↔
      (p ∈ status.peer ∧ p.exitNodeOption = true ∧
        ∃ loc, p.location = some loc ∧ loc.countryCode = cc ∧ loc.cityCode = kc) :=
  mem_cityPeers_iff status cc kc p

theorem alistFind_mem {α : Type} (k : String) (v : α) (l : List (String × α))
    (h : alistFind k l = some v) : (k, v) ∈ l := by
  induction l with
  | nil => simp [alistFind] at h
  | cons e rest ih =>
    obtain ⟨k0, v0⟩ := e
    by_cases h0 : k0 = k
    · subst h0
      simp [alistFind] at h
      subst h
      exact List.mem_cons_self _ _
    · simp [alistFind, h0] at h
      exact List.mem_cons_of_mem _ (ih h)

theorem self_mem_alistSet {α : Type} (k : String) (v : α) (l : List (String × α)) :
    (k, v) ∈ alistSet k v l := by
  induction l with
  | nil => simp [alistSet]
  | cons e rest ih =>
    obtain ⟨k0, v0⟩ := e
    by_cases h0 : k0 = k
    · simp [alistSet, h0]
    · simp only [alistSet, if_neg h0]
      exact List.mem_cons_of_mem _ ih

theorem mem_alistSet {α : Type} (k : String) (v : α) (l : List (String × α))
    (e : String × α) (h : e ∈ alistSet k v l) : e = (k, v) ∨ e ∈ l := by
  induction l with
  | nil => simpa [alistSet] using h
  | cons e0 rest ih =>
    obtain ⟨k0, v0⟩ := e0
    by_cases h0 : k0 = k
    · simp only [alistSet, if_pos h0] at h
      rcases List.mem_cons.mp h with rfl | h'
      · exact Or.inl rfl
      · exact Or.inr (List.mem_cons_of_mem _ h')
    · simp only [alistSet, if_neg h0] at h
      rcases List.mem_cons.mp h with rfl | h'
      · exact Or.inr (List.mem_cons_self _ _)
      · rcases ih h' with h'' | h''
        · exact Or.inl h''
        · exact Or.inr (List.mem_cons_of_mem _ h'')

theorem mem_alistSet_of_ne {α : Type} (k : String) (v : α) (l : List (String × α))
    (e : String × α) (he : e ∈ l) (hk : e.1 ≠ k) : e ∈ alistSet k v l := by
  induction l with
  | nil => cases he
  | cons e0 rest ih =>
    obtain ⟨k0, v0⟩ := e0
    rcases List.mem_cons.mp he with rfl | he'
    · have h0 : k0 ≠ k := hk
      simp only [alistSet, if_neg h0]
      exact List.mem_cons_self _ _
    · by_cases h0 : k0 = k
      · simp only [alistSet, if_pos h0]
        exact List.mem_cons_of_mem _ he'
      · simp only [alistSet, if_neg h0]
        exact List.mem_cons_of_mem _ (ih he')

theorem alistSet_ne_nil {α : Type} (k : String) (v : α) (l : List (String × α)) :
    alistSet k v l ≠ [] := by
  cases l with
  | nil => simp [alistSet]
  | cons e rest =>
    obtain ⟨k0, v0⟩ := e
    by_cases h0 : k0 = k
    · simp [alistSet, h0]
    · simp [alistSet, h0]

theorem keys_alistSet {α : Type} (k : String) (v : α) (l : List (String × α)) :
    (alistSet k v l).map Prod.fst = l.map Prod.fst ∨
      (alistSet k v l).map Prod.fst = l.map Prod.fst ++ [k] := by
  induction l with
  | nil => simp [alistSet]
  | cons e rest ih =>
    obtain ⟨k0, v0⟩ := e
    by_cases h0 : k0 = k
    · subst h0
      simp [alistSet]
    · rcases ih with h | h
    
      · exact Or.inl (by simp [alistSet, h0, h])
      · exact Or.inr (by simp [alistSet, h0, h])

theorem keys_nodup_alistSet {α : Type} (k : String) (v : α) (l : List (String × α))
    (h : (l.map Prod.fst).Nodup) :
    ((alistSet k v l).map Prod.fst).Nodup := by
  induction l with
  | nil => simp [alistSet]
  | cons e rest ih =>
    obtain ⟨k0, v0⟩ := e
    simp only [List.map_cons, List.nodup_cons] at h
    by_cases h0 : k0 = k
    · subst h0
      show ((if k0 = k0 then (k0, v) :: rest else (k0, v0) :: alistSet k0 v rest).map Prod.fst).Nodup
      rw [if_pos rfl]
      simp only [List.map_cons, List.nodup_cons]
      exact h
    · simp only [alistSet, if_neg h0, List.map_cons, List.nodup_cons]
      constructor
      · intro hc
        rcases keys_alistSet k v rest with hk | hk
        · rw [hk] at hc
          exact h.1 hc
        · rw [hk] at hc
          rcases List.mem_append.mp hc with hc | hc
          · exact h.1 hc
          · simp at hc
            exact h0 hc
      · exact ih h.2

theorem alistFind_eq_of_mem_nodup {α : Type} (k : String) (v : α) (l : List (String × α))
    (hnd : (l.map Prod.fst).Nodup) (h : (k, v) ∈ l) : alistFind k l = some v := by
  induction l with
  | nil => cases h
  | cons e rest ih =>
    obtain ⟨k0, v0⟩ := e
    simp only [List.map_cons, List.nodup_cons] at hnd
    rcases List.mem_cons.mp h with heq | h'
    · obtain ⟨rfl, rfl⟩ : k0 = k ∧ v0 = v := by
        constructor <;> injection heq <;> simp_all
      simp [alistFind]
    · have hk : k0 ≠ k := by
        rintro rfl
        exact hnd.1 (List.mem_map.mpr ⟨(k0, v), h', rfl⟩)
      simp only [alistFind, if_neg hk]
      exact ih hnd.2 h'

/-- The best-peer invariant of a city bucket: `best` is `none` only for an
empty bucket, is itself a member, and has maximal priority. -/
def cityBestInv (c : MvCity) : Prop :=
  (c.best = none → c.peers = []) ∧
  ∀ b, c.best = some b → b ∈ c.peers ∧ ∀ p ∈ c.peers, locPriority p ≤ locPriority b

/-- The best-peer invariant of a country bucket, over the union of its
cities' peer lists. -/
def countryBestInv (c : MvCountry) : Prop :=
  (c.best = none → c.cities = []) ∧
  ∀ b, c.best = some b →
    (∃ e ∈ c.cities, b ∈ e.2.peers) ∧
    ∀ e ∈ c.cities, ∀ p ∈ e.2.peers, locPriority p ≤ locPriority b

theorem bestUpd_ne_none (cur : Option PeerStatus) (q : PeerStatus) :
    bestUpd cur q ≠ none := by
  rcases cur with _ | b
  · simp [bestUpd]
  · simp only [bestUpd]
    split <;> simp

theorem cityBestInv_fresh (name : String) : cityBestInv ⟨name, none, []⟩ :=
  ⟨fun _ => rfl, by simp⟩

theorem cityBestInv_upd (city : MvCity) (q : PeerStatus) (h : cityBestInv city) :
    cityBestInv { city with peers := city.peers ++ [q], best := bestUpd city.best q } := by
  obtain ⟨hnone, hsome⟩ := h
  constructor
  · intro hn
    exact absurd hn (bestUpd_ne_none _ _)
  · intro b hb
    simp only at hb
    rcases hcb : city.best with _ | b0
    · rw [hcb] at hb
      simp [bestUpd] at hb
      subst hb
      have hp := hnone hcb
      simp [hp]
    · rw [hcb] at hb
      obtain ⟨hmem, hle⟩ := hsome b0 hcb
      simp only [bestUpd] at hb
      by_cases hgt : locPriority q > locPriority b0
      · rw [if_pos hgt] at hb
        injection hb with hb
        subst hb
        constructor
        · simp
        · intro p hp
          rcases List.mem_append.mp hp with hp | hp
          · exact (hle p hp).trans hgt.le
          · simp at hp
            subst hp
            exact le_refl _
      · rw [if_neg hgt] at hb
        injection hb with hb
        subst hb
        constructor
        · exact List.mem_append.mpr (Or.inl hmem)
        · intro p hp
          rcases List.mem_append.mp hp with hp | hp
          · exact hle p hp
          · simp at hp
            subst hp
            exact le_of_not_lt hgt

theorem countryBestInv_update (cs : List (String × MvCity)) (ob : Option PeerStatus)
    (kc : String) (city : MvCity) (q : PeerStatus)
    (hnd : (cs.map Prod.fst).Nodup)
    (hob_none : ob = none → cs = [])
    (hob_some : ∀ b, ob = some b →
      (∃ e ∈ cs, b ∈ e.2.peers) ∧ ∀ e ∈ cs, ∀ p ∈ e.2.peers, locPriority p ≤ locPriority b)
    (hcity : alistFind kc cs = some city ∨ (alistFind kc cs = none ∧ city.peers = []))
    (c' : MvCountry)
    (hb' : c'.best = bestUpd ob q)
    (hc' : c'.cities = alistSet kc
        { city with peers := city.peers ++ [q], best := bestUpd city.best q } cs) :
    countryBestInv c' := by
  constructor
  · intro hn
    rw [hb'] at hn
    exact absurd hn (bestUpd_ne_none _ _)
  · intro b2 hb2
    rw [hb'] at hb2
    rcases ob with _ | b
    · -- previous best was nil: the country held no city yet
      have hcs : cs = [] := hob_none rfl
      subst hcs
      have hcp : city.peers = [] := by
        rcases hcity with hf | ⟨_, hp⟩
        · simp [alistFind] at hf
        · exact hp
      simp only [bestUpd] at hb2
      injection hb2 with hb2
      subst hb2
      rw [hc']
      constructor
      · exact ⟨(kc, { city with peers := city.peers ++ [q], best := bestUpd city.best q }),
          self_mem_alistSet _ _ _, by simp⟩
      · intro e he p hp
        rcases mem_alistSet _ _ _ _ he with rfl | he'
        · simp only [hcp, List.nil_append] at hp
          simp at hp
          subst hp
          exact le_refl _
        · cases he'
    · obtain ⟨⟨e0, he0, hbe0⟩, hbound⟩ := hob_some b rfl
      by_cases hgt : locPriority q > locPriority b
      · -- the new peer becomes the country best
        simp only [bestUpd, if_pos hgt] at hb2
        injection hb2 with hb2
        subst hb2
        rw [hc']
        constructor
        · exact ⟨(kc, { city with peers := city.peers ++ [q], best := bestUpd city.best q }),
            self_mem_alistSet _ _ _, by simp⟩
        · intro e he p hp
          rcases mem_alistSet _ _ _ _ he with rfl | he'
          · simp only at hp
            rcases List.mem_append.mp hp with hp | hp
            · have hpb : locPriority p ≤ locPriority b := by
                rcases hcity with hf | ⟨_, hpe⟩
                · exact hbound _ (alistFind_mem _ _ _ hf) p hp
                · rw [hpe] at hp
                  cases hp
              exact hpb.trans hgt.le
            · simp at hp
              subst hp
              exact le_refl _
          · exact (hbound e he' p hp).trans hgt.le
      · -- the previous best keeps its place
        simp only [bestUpd, if_neg hgt] at hb2
        injection hb2 with hb2
        subst hb2
        rw [hc']
        constructor
        · obtain ⟨k0, c0⟩ := e0
          by_cases hk : k0 = kc
          · subst hk
            have hf0 : alistFind k0 cs = some c0 := alistFind_eq_of_mem_nodup _ _ _ hnd he0
            rcases hcity with hf | ⟨hf, _⟩
            · rw [hf0] at hf
              injection hf with hf
              subst hf
              exact ⟨(k0, { c0 with peers := c0.peers ++ [q], best := bestUpd c0.best q }),
                self_mem_alistSet _ _ _, List.mem_append.mpr (Or.inl hbe0)⟩
            · rw [hf0] at hf
              cases hf
          · exact ⟨(k0, c0), mem_alistSet_of_ne _ _ _ _ he0 hk, hbe0⟩
        · intro e he p hp
          rcases mem_alistSet _ _ _ _ he with rfl | he'
          · simp only at hp
            rcases List.mem_append.mp hp with hp | hp
            · rcases hcity with hf | ⟨_, hpe⟩
              · exact hbound _ (alistFind_mem _ _ _ hf) p hp
              · rw [hpe] at hp
                cases hp
            · simp at hp
              subst hp
              exact le_of_not_lt hgt
          · exact hbound e he' p hp

/-- The inductive invariant of the grouping loop: every country has
distinct city keys, satisfies the country best-peer invariant, and all its
cities satisfy the city best-peer invariant. -/
def mvInv (countries : List (String × MvCountry)) : Prop :=
  ∀ e ∈ countries,
    (e.2.cities.map Prod.fst).Nodup ∧
    countryBestInv e.2 ∧
    ∀ ec ∈ e.2.cities, cityBestInv ec.2

theorem mvInv_insert (acc : List (String × MvCountry)) (q : PeerStatus) (loc : Location)
    (h : mvInv acc) (country : MvCountry) (city : MvCity)
    (hcountry : alistFind loc.countryCode acc = some country ∨
      (alistFind loc.countryCode acc = none ∧
        country = ⟨loc.countryCode, loc.country, none, []⟩))
    (hcity : alistFind loc.cityCode country.cities = some city ∨
      (alistFind loc.cityCode country.cities = none ∧ city = ⟨loc.city, none, []⟩)) :
    mvInv (alistSet loc.countryCode
      { country with
          cities := alistSet loc.cityCode
            { city with peers := city.peers ++ [q], best := bestUpd city.best q }
            country.cities,
          best := bestUpd country.best q } acc) := by
  have hcnd : (country.cities.map Prod.fst).Nodup := by
    rcases hcountry with hf | ⟨_, rfl⟩
    · exact (h _ (alistFind_mem _ _ _ hf)).1
    · simp
  have hcinv : countryBestInv country := by
    rcases hcountry with hf | ⟨_, rfl⟩
    · exact (h _ (alistFind_mem _ _ _ hf)).2.1
    · exact ⟨fun _ => rfl, by simp [countryBestInv]⟩
  have hcities : ∀ ec ∈ country.cities, cityBestInv ec.2 := by
    rcases hcountry with hf | ⟨_, rfl⟩
    · exact (h _ (alistFind_mem _ _ _ hf)).2.2
    · intro ec hec
      cases hec
  have hcityinv : cityBestInv city := by
    rcases hcity with hf | ⟨_, rfl⟩
    · exact hcities _ (alistFind_mem _ _ _ hf)
    · exact cityBestInv_fresh _
  intro e he
  rcases mem_alistSet _ _ _ _ he with rfl | he'
  · refine ⟨keys_nodup_alistSet _ _ _ hcnd, ?_, ?_⟩
    · refine countryBestInv_update country.cities country.best loc.cityCode city q hcnd
        hcinv.1 hcinv.2 ?_ _ rfl rfl
      rcases hcity with hf | ⟨hf, rfl⟩
      · exact Or.inl hf
      · exact Or.inr ⟨hf, rfl⟩
    · intro ec hec
      rcases mem_alistSet _ _ _ _ hec with rfl | hec'
      · exact cityBestInv_upd city q hcityinv
      · exact hcities _ hec'
  · exact h e he'

theorem mvInv_mvStep (acc : List (String × MvCountry)) (q : PeerStatus)
    (h : mvInv acc) : mvInv (mvStep acc q) := by
  rcases hloc : q.location with _ | loc
  · simpa [mvStep, hloc] using h
  · by_cases hopt : q.exitNodeOption = true
    · simp only [mvStep, hloc, hopt, if_true]
      rcases hfc : alistFind loc.countryCode acc with _ | country
      · simp only [hfc]
        exact mvInv_insert acc q loc h _ _ (Or.inr ⟨hfc, rfl⟩) (Or.inr ⟨rfl, rfl⟩)
      · simp only [hfc]
        rcases hfk : alistFind loc.cityCode country.cities with _ | city
        · simp only [hfk]
          exact mvInv_insert acc q loc h _ _ (Or.inl hfc) (Or.inr ⟨hfk, rfl⟩)
        · simp only [hfk]
          exact mvInv_insert acc q loc h _ _ (Or.inl hfc) (Or.inl hfk)
    · simpa [mvStep, hloc, hopt] using h

theorem mvInv_foldl (l : List PeerStatus) (acc : List (String × MvCountry))
    (h : mvInv acc) : mvInv (l.foldl mvStep acc) := by
  induction l generalizing acc with
  | nil => exact h
  | cons q rest ih => exact ih _ (mvInv_mvStep _ _ h)

theorem mvInv_nil : mvInv [] := fun e he => absurd he (List.not_mem_nil e)

theorem newMullvadPeers_mvInv (status : Status) :
    mvInv (newMullvadPeers status).countries :=
  mvInv_foldl _ _ mvInv_nil

/-- **C2.** In the built taxonomy, every country's and every city's best
peer is a member of that bucket's own peer set (in particular it exists
whenever the bucket is non-empty, and is never a foreign peer), and its
location priority is maximal in the bucket. -/
theorem newMullvadPeers_best (status : Status) :
    ∀ e ∈ (newMullvadPeers status).countries,
      countryBestInv e.2 ∧ ∀ ec ∈ e.2.cities, cityBestInv ec.2 :=
  fun e he =>
    ⟨(newMullvadPeers_mvInv status e he).2.1, (newMullvadPeers_mvInv status e he).2.2⟩

/-- A second loop invariant: every country holds at least one city, and a
country holding exactly one city has that city's best peer as its own best
peer (both were updated by exactly the same sequence of comparisons). -/
def mvShapeInv (countries : List (String × MvCountry)) : Prop :=
  ∀ e ∈ countries, e.2.cities ≠ [] ∧
    ∀ kc city, e.2.cities = [(kc, city)] → e.2.best = city.best

theorem mvShapeInv_insert (acc : List (String × MvCountry)) (q : PeerStatus) (loc : Location)
    (h : mvShapeInv acc) (country : MvCountry) (city : MvCity)
    (hcountry : alistFind loc.countryCode acc = some country ∨
      (alistFind loc.countryCode acc = none ∧
        country = ⟨loc.countryCode, loc.country, none, []⟩))
    (hcity : alistFind loc.cityCode country.cities = some city ∨
      (alistFind loc.cityCode country.cities = none ∧ city = ⟨loc.city, none, []⟩)) :
    mvShapeInv (alistSet loc.countryCode
      { country with
          cities := alistSet loc.cityCode
            { city with peers := city.peers ++ [q], best := bestUpd city.best q }
            country.cities,
          best := bestUpd country.best q } acc) := by
  intro e he
  rcases mem_alistSet _ _ _ _ he with rfl | he'
  · constructor
    · exact alistSet_ne_nil _ _ _
    · intro kc2 city2 hsing
      simp only at hsing ⊢
      rcases hcs : country.cities with _ | ⟨⟨k0, c0⟩, rest⟩
      · -- the country had no city yet: it must be freshly created
        have hfresh : country.best = none := by
          rcases hcountry with hf | ⟨_, rfl⟩
          · exact absurd hcs ((h _ (alistFind_mem _ _ _ hf)).1)
          · rfl
        have hcb : city.best = none := by
          rcases hcity with hf | ⟨_, rfl⟩
          · rw [hcs] at hf
            simp [alistFind] at hf
          · rfl
        rw [hcs] at hsing
        simp only [alistSet] at hsing
        injection hsing with h1 h2
        injection h1 with h1a h1b
        subst h1b
        simp only [hfresh, hcb]
      · rw [hcs] at hsing
        by_cases hk0 : k0 = loc.cityCode
        · subst hk0
          simp only [alistSet, if_pos rfl] at hsing
          injection hsing with h1 h2
          subst h2
          injection h1 with h1a h1b
          subst h1b
          -- the country already was a single-city country with this city
          have hcity' : city = c0 := by
            rcases hcity with hf | ⟨hf, _⟩
            · rw [hcs] at hf
              simp [alistFind] at hf
              exact hf.symm
            · rw [hcs] at hf
              simp [alistFind] at hf
          subst hcity'
          have hcb : country.best = city.best := by
            rcases hcountry with hf | ⟨_, rfl⟩
            · exact (h _ (alistFind_mem _ _ _ hf)).2 _ city hcs
            · cases hcs
          rw [hcb]
        · simp only [alistSet, if_neg hk0] at hsing
          injection hsing with h1 h2
          exact absurd h2 (alistSet_ne_nil _ _ _)
  · exact h e he'

theorem mvShapeInv_mvStep (acc : List (String × MvCountry)) (q : PeerStatus)
    (h : mvShapeInv acc) : mvShapeInv (mvStep acc q) := by
  rcases hloc : q.location with _ | loc
  · simpa [mvStep, hloc] using h
  · by_cases hopt : q.exitNodeOption = true
    · simp only [mvStep, hloc, hopt, if_true]
      rcases hfc : alistFind loc.countryCode acc with _ | country
      · simp only [hfc]
        exact mvShapeInv_insert acc q loc h _ _ (Or.inr ⟨hfc, rfl⟩) (Or.inr ⟨rfl, rfl⟩)
      · simp only [hfc]
        rcases hfk : alistFind loc.cityCode country.cities with _ | city
        · simp only [hfk]
          exact mvShapeInv_insert acc q loc h _ _ (Or.inl hfc) (Or.inr ⟨hfk, rfl⟩)
        · simp only [hfk]
          exact mvShapeInv_insert acc q loc h _ _ (Or.inl hfc) (Or.inl hfk)
    · simpa [mvStep, hloc, hopt] using h

theorem mvShapeInv_foldl (l : List PeerStatus) (acc : List (String × MvCountry))
    (h : mvShapeInv acc) : mvShapeInv (l.foldl mvStep acc) := by
  induction l generalizing acc with
  | nil => exact h
  | cons q rest ih => exact ih _ (mvShapeInv_mvStep _ _ h)

theorem newMullvadPeers_shape (status : Status) :
    mvShapeInv (newMullvadPeers status).countries :=
  mvShapeInv_foldl _ _ (fun e he => absurd he (List.not_mem_nil e))


/-! ### A concrete taxonomy, used as witness input -/

/-- Berlin location at priority 10. -/
def exLocBerlin : Location := ⟨"DE", "Germany", "ber", "Berlin", 10⟩

/-- Frankfurt location at priority 20. -/
def exLocFrankfurt : Location := ⟨"DE", "Germany", "fra", "Frankfurt", 20⟩

/-- An online mullvad exit-node peer in Berlin. -/
def exPeerBerlin : PeerStatus := ⟨"n1", "berlin.ts.net", true, true, some exLocBerlin⟩

/-- An online mullvad exit-node peer in Frankfurt. -/
def exPeerFrankfurt : PeerStatus := ⟨"n2", "frankfurt.ts.net", true, true, some exLocFrankfurt⟩

/-- A status holding the two German mullvad peers and no active exit node. -/
def exStatus : Status :=
  ⟨some ⟨"host", ["mullvad"]⟩, none, [exPeerBerlin, exPeerFrankfurt]⟩

/-- The country bucket `newMullvadPeers exStatus` builds for Germany. -/
def exGermany : MvCountry :=
  { code := "DE", name := "Germany", best := some exPeerFrankfurt,
    cities := [("ber", { name := "Berlin", best := some exPeerBerlin, peers := [exPeerBerlin] }),
               ("fra", { name := "Frankfurt", best := some exPeerFrankfurt, peers := [exPeerFrankfurt] })] }

/-- Witness for `newMullvadPeers_best`: the Germany bucket of the example
status satisfies both best-peer invariants (the country best resolves to the
Frankfurt peer of priority 20). -/
theorem newMullvadPeers_best_witness :
    countryBestInv exGermany ∧ ∀ ec ∈ exGermany.cities, cityBestInv ec.2 :=
  newMullvadPeers_best exStatus ("DE", exGermany) (by decide)


/-! ## Rendering the exit-node menu (`rebuildExitNodeMenu`)

The render plan records, per entry, the checked/disabled flags and the
target peer id its click handler forwards; the on-screen label strings
(pure presentation) are not part of the plan, except for the country/city
names that drive sorting. `renderExitNodeMenu` returns `none` when the
source would dereference a nil pointer (`status.ExitNodeStatus` on a nil
status, or `status.Self.CapMap` on a nil self peer). -/

/-- The result of `localClient.SuggestExitNode`, an external call: the
suggested node id and its (optional) location. -/
structure SuggestionResult where
  id : String
  name : String
  location : Option Location
  deriving Repr, DecidableEq

/-- One tailnet (unlocated) exit-node entry. -/
structure TailnetEntry where
  disabled : Bool
  checked : Bool
  target : String
  deriving Repr, DecidableEq

/-- One city entry inside a multi-city country submenu. -/
structure CityEntry where
  name : String
  checked : Bool
  target : String
  deriving Repr, DecidableEq

/-- One country entry of the location-based section. A single-city country
is a flat toggle (`flatTarget` set, no submenu); a multi-city country has a
"Best Available" head entry (`bestAvailable` is its target id) and one
entry per city. -/
structure CountryEntry where
  code : String
  name : String
  checked : Bool
  bestAvailable : Option String
  cities : List CityEntry
  flatTarget : Option String
  deriving Repr, DecidableEq

/-- The "Recommended" entry. -/
structure RecommendedEntry where
  checked : Bool
  target : String
  deriving Repr, DecidableEq

/-- The render plan of the exit-node submenu: the "None" entry's checked
state, the optional recommended entry, the tailnet entries in status order,
and the location-based section (root checked flag and sorted countries),
present only when mullvad countries exist. -/
structure ExitNodeMenu where
  noneChecked : Bool
  recommended : Option RecommendedEntry
  tailnet : List TailnetEntry
  mullvad : Option (Bool × List CountryEntry)
  deriving Repr, DecidableEq

/-- Insertion step of the name sort used for countries and cities. -/
def insertByName {α : Type} (name : α → String) (x : α) : List α → List α
  | [] => [x]
  | y :: ys => if name x ≤ name y then x :: y :: ys else y :: insertByName name x ys

/-- Sort by display name, as `sortedCountries`/`sortedCities` do with
`slices.SortFunc` and `cmp.Compare` on the name. -/
def sortByName {α : Type} (name : α → String) : List α → List α
  | [] => []
  | x :: xs => insertByName name x (sortByName name xs)

/-- `mullvadPeers.sortedCountries`: country values sorted by name. -/
def sortedCountries (mp : MullvadPeers) : List MvCountry :=
  sortByName MvCountry.name (mp.countries.map Prod.snd)

/-- `mvCountry.sortedCities`: city values sorted by name. -/
def sortedCities (c : MvCountry) : List MvCity :=
  sortByName MvCity.name (c.cities.map Prod.snd)

/-- `status.ExitNodeStatus != nil && status.ExitNodeStatus.ID == id`. -/
def matchesExit (e : Option ExitNodeStatusInfo) (id : String) : Bool :=
  match e with
  | none => false
  | some en => en.id = id

/-- Whether a city's peer list holds the active exit node. -/
def cityHasActive (e : Option ExitNodeStatusInfo) (c : MvCity) : Bool :=
  match e with
  | none => false
  | some en => c.peers.any fun ps => ps.id = en.id

/-- Whether any city of the country holds the active exit node. -/
def countryHasActive (e : Option ExitNodeStatusInfo) (c : MvCountry) : Bool :=
  match e with
  | none => false
  | some en => c.cities.any fun ec => ec.2.peers.any fun ps => ps.id = en.id

/-- `best.ID`; the `none` case models the nil dereference the source would
hit on an empty bucket, which `newMullvadPeers` never produces. -/
def bestId : Option PeerStatus → String
  | none => ""
  | some b => b.id

/-- Render one country of the location-based section: a flat toggle
targeting `country.best.ID` when it has exactly one city, otherwise a
submenu with a "Best Available" entry and the sorted cities. -/
def renderCountry (e : Option ExitNodeStatusInfo) (c : MvCountry) : CountryEntry :=
  if c.cities.length = 1 then
    { code := c.code, name := c.name, checked := countryHasActive e c,
      bestAvailable := none, cities := [], flatTarget := some (bestId c.best) }
  else
    { code := c.code, name := c.name, checked := countryHasActive e c,
      bestAvailable := some (bestId c.best),
      cities := (sortedCities c).map fun city =>
        { name := city.name, checked := cityHasActive e city, target := bestId city.best },
      flatTarget := none }

/-- `tailcfg.NodeAttrSuggestExitNodeUI`, the capability gating the
recommended entry. -/
def suggestExitNodeCap : String := "suggest-exit-node-ui"

/-- The render pass of `rebuildExitNodeMenu`, as a pure function of the
status snapshot and the result of the external `SuggestExitNode` call
(`sugg = none` models its error case). A `none` result models a nil
dereference: the source reads `status.ExitNodeStatus` and
`status.Self.CapMap` unguarded. -/
def renderExitNodeMenu (status? : Option Status) (sugg : Option SuggestionResult) :
    Option ExitNodeMenu :=
  match status? with
  | none => none
  | some status =>
    match status.self with
    | none => none
    | some self =>
      let recommended : Option RecommendedEntry :=
        if self.capMap.contains suggestExitNodeCap then
          match sugg with
          | none => none
          | some s => some { target := s.id, checked := matchesExit status.exitNodeStatus s.id }
        else none
      let tailnet : List TailnetEntry :=
        (status.peer.filter fun ps => ps.exitNodeOption && ps.location.isNone).map fun ps =>
          { disabled := !ps.online,
            checked := matchesExit status.exitNodeStatus ps.id,
            target := ps.id }
      let mv : MullvadPeers :=
        if self.capMap.contains "mullvad" then newMullvadPeers status else ⟨[]⟩
      let mullvad : Option (Bool × List CountryEntry) :=
        if 0 < mv.countries.length then
          some (mv.countries.any fun ec => countryHasActive status.exitNodeStatus ec.2,
            (sortedCountries mv).map (renderCountry status.exitNodeStatus))
        else none
      some { noneChecked := status.exitNodeStatus.isNone,
             recommended := recommended, tailnet := tailnet, mullvad := mullvad }

end Systray

namespace Systray

theorem perm_insertByName {α : Type} (name : α → String) (x : α) (l : List α) :
    (insertByName name x l).Perm (x :: l) := by
  induction l with
  | nil => simp [insertByName]
  | cons y ys ih =>
    simp only [insertByName]
    split
    · exact List.Perm.refl _
    · exact (List.Perm.cons y ih).trans (List.Perm.swap x y ys)

theorem perm_sortByName {α : Type} (name : α → String) (l : List α) :
    (sortByName name l).Perm l := by
  induction l with
  | nil => exact List.Perm.refl _
  | cons x xs ih =>
    exact (perm_insertByName name x (sortByName name xs)).trans (List.Perm.cons x ih)

theorem mem_sortByName {α : Type} (name : α → String) (y : α) (l : List α) :
    y ∈ sortByName name l ↔ y ∈ l :=
  (perm_sortByName name l).mem_iff

theorem keys_nodup_mvStep (acc : List (String × MvCountry)) (q : PeerStatus)
    (h : (acc.map Prod.fst).Nodup) : ((mvStep acc q).map Prod.fst).Nodup := by
  rcases hloc : q.location with _ | loc
  · simpa [mvStep, hloc] using h
  · by_cases hopt : q.exitNodeOption = true
    · simp only [mvStep, hloc, hopt, if_true]
      rcases hfc : alistFind loc.countryCode acc with _ | country
      · simp only [hfc]
        exact keys_nodup_alistSet _ _ _ h
      · simp only [hfc]
        rcases hfk : alistFind loc.cityCode country.cities with _ | city
        · simp only [hfk]
          exact keys_nodup_alistSet _ _ _ h
        · simp only [hfk]
          exact keys_nodup_alistSet _ _ _ h
    · simpa [mvStep, hloc, hopt] using h

theorem newMullvadPeers_keys_nodup (status : Status) :
    ((newMullvadPeers status).countries.map Prod.fst).Nodup := by
  suffices hgen : ∀ (l : List PeerStatus) (acc : List (String × MvCountry)),
      (acc.map Prod.fst).Nodup → ((l.foldl mvStep acc).map Prod.fst).Nodup by
    exact hgen status.peer [] (by simp)
  intro l
  induction l with
  | nil => exact fun acc h => h
  | cons q rest ih => exact fun acc h => ih _ (keys_nodup_mvStep _ _ h)

/-- A peer found inside a city bucket of the built taxonomy is an eligible
located peer of the status whose location codes name that bucket. -/
theorem mem_bucket_peer (status : Status) (cc : String) (c : MvCountry)
    (hc : (cc, c) ∈ (newMullvadPeers status).countries)
    (kc : String) (city : MvCity) (hk : (kc, city) ∈ c.cities)
    (ps : PeerStatus) (hps : ps ∈ city.peers) :
    ps ∈ status.peer ∧ ps.exitNodeOption = true ∧
      ∃ loc, ps.location = some loc ∧ loc.countryCode = cc ∧ loc.cityCode = kc := by
  have hndc := newMullvadPeers_keys_nodup status
  have hfc := alistFind_eq_of_mem_nodup cc c _ hndc hc
  have hndk := (newMullvadPeers_mvInv status _ hc).1
  have hfk := alistFind_eq_of_mem_nodup kc city _ hndk hk
  have hmem : ps ∈ cityPeers (newMullvadPeers status) cc kc := by
    simp only [cityPeers, cityPeersIn, hfc, hfk]
    exact hps
  exact (mem_cityPeers_iff status cc kc ps).mp hmem

end Systray

namespace Systray

/-- **C4.** A country of the built taxonomy renders a nested "Best
Available" entry iff it has more than one city; a country with exactly one
city renders as a flat toggle (no submenu, no "Best Available") whose click
target is that city's best peer. -/
theorem renderCountry_best_available (status : Status) (c : MvCountry)
    (hc : c ∈ sortedCountries (newMullvadPeers status)) :
    ((renderCountry status.exitNodeStatus c).bestAvailable.isSome ↔ 1 < c.cities.length) ∧
    (∀ kc city, c.cities = [(kc, city)] →
      renderCountry status.exitNodeStatus c =
        { code := c.code, name := c.name,
          checked := countryHasActive status.exitNodeStatus c,
          bestAvailable := none, cities := [],
          flatTarget := some (bestId city.best) }) := by
  obtain ⟨e, he, rfl⟩ : ∃ e ∈ (newMullvadPeers status).countries, e.2 = c := by
    rw [sortedCountries, mem_sortByName] at hc
    obtain ⟨e, he, h2⟩ := List.mem_map.mp hc
    exact ⟨e, he, h2⟩
  obtain ⟨hne, hsing⟩ := newMullvadPeers_shape status e he
  constructor
  · by_cases hlen : e.2.cities.length = 1
    · simp only [renderCountry, if_pos hlen, hlen]
      simp
    · simp only [renderCountry, if_neg hlen]
      have hpos : 0 < e.2.cities.length := List.length_pos.mpr hne
      simp only [Option.isSome_some, true_iff]
      omega
  · intro kc city hcs
    have hlen : e.2.cities.length = 1 := by rw [hcs]; rfl
    have hbest : e.2.best = city.best := hsing kc city hcs
    simp only [renderCountry, if_pos hlen, hbest]

end Systray

namespace Systray

/-- **C9.** The tailnet section holds one entry per exit-node-eligible peer
without location, in status order; each entry targets that peer's id, is
disabled iff the peer is offline, and is checked iff the peer's id is the
active exit-node id. -/
theorem renderExitNodeMenu_tailnet (status : Status) (sugg : Option SuggestionResult)
    (m : ExitNodeMenu) (hm : renderExitNodeMenu (some status) sugg = some m) :
    List.Forall₂ (fun (t : TailnetEntry) (ps : PeerStatus) =>
        t.target = ps.id ∧ (t.disabled = true ↔ ps.online = false) ∧
        (t.checked = true ↔ ∃ en, status.exitNodeStatus = some en ∧ en.id = ps.id))
      m.tailnet (status.peer.filter fun ps => ps.exitNodeOption && ps.location.isNone) := by
  rcases hself : status.self with _ | self
  · simp [renderExitNodeMenu, hself] at hm
  · simp only [renderExitNodeMenu, hself] at hm
    obtain rfl := Option.some_inj.mp hm
    simp only
    rw [List.forall₂_map_left_iff]
    rw [List.forall₂_same]
    intro ps _
    refine ⟨rfl, ?_, ?_⟩
    · simp
    · rcases hex : status.exitNodeStatus with _ | en
      · simp [matchesExit, hex]
      · simp only [matchesExit, hex]
        constructor
        · intro h
          exact ⟨en, rfl, of_decide_eq_true h⟩
        · rintro ⟨en2, hen2, hid⟩
          obtain rfl := Option.some_inj.mp hen2
          exact decide_eq_true hid

end Systray

namespace Systray

/-- A single-city Sweden status: one mullvad peer, no active exit node. -/
def exPeerSweden : PeerStatus :=
  ⟨"n3", "stockholm.ts.net", true, true, some ⟨"SE", "Sweden", "sto", "Stockholm", 5⟩⟩

/-- Status holding only the Swedish peer. -/
def exStatusSweden : Status := ⟨some ⟨"host", ["mullvad"]⟩, none, [exPeerSweden]⟩

/-- The country bucket built for Sweden. -/
def exSweden : MvCountry :=
  { code := "SE", name := "Sweden", best := some exPeerSweden,
    cities := [("sto", { name := "Stockholm", best := some exPeerSweden,
                         peers := [exPeerSweden] })] }

/-- Witness for `renderCountry_best_available`: the one-city country Sweden
renders as a flat toggle targeting its city's best peer, with no
"Best Available" entry and no submenu. -/
theorem renderCountry_best_available_witness :
    renderCountry exStatusSweden.exitNodeStatus exSweden =
      { code := "SE", name := "Sweden", checked := false,
        bestAvailable := none, cities := [], flatTarget := some "n3" } := by
  have h := (renderCountry_best_available exStatusSweden exSweden (by decide)).2
    "sto" ⟨"Stockholm", some exPeerSweden, [exPeerSweden]⟩ (by decide)
  rw [h]
  decide

/-- An offline tailnet exit-node peer without location. -/
def exTailnetPeer : PeerStatus := ⟨"t1", "relay.ts.net", false, true, none⟩

/-- Status whose active exit node is the offline tailnet peer. -/
def exStatusTailnet : Status := ⟨some ⟨"host", []⟩, some ⟨"t1"⟩, [exTailnetPeer]⟩

/-- Witness for `renderExitNodeMenu_tailnet`: the offline active tailnet
peer renders as one entry, disabled and checked. -/
theorem renderExitNodeMenu_tailnet_witness :
    List.Forall₂ (fun (t : TailnetEntry) (ps : PeerStatus) =>
        t.target = ps.id ∧ (t.disabled = true ↔ ps.online = false) ∧
        (t.checked = true ↔ ∃ en, exStatusTailnet.exitNodeStatus = some en ∧ en.id = ps.id))
      [⟨true, true, "t1"⟩]
      (exStatusTailnet.peer.filter fun ps => ps.exitNodeOption && ps.location.isNone) :=
  renderExitNodeMenu_tailnet exStatusTailnet none
    ⟨false, none, [⟨true, true, "t1"⟩], none⟩ (by decide)

/-- **C8.** With a nil status (failed snapshot fetch), the exit-node menu
rebuild does not complete: the source dereferences the nil status
(`status.ExitNodeStatus`), modelled by the `none` result, instead of
building the remaining sections. -/
theorem renderExitNodeMenu_nil_status (sugg : Option SuggestionResult) :
    renderExitNodeMenu none sugg = none := rfl

/-- Self peer advertising both the suggestion and the mullvad capability. -/
def cexSelf : SelfStatus := ⟨"host", [suggestExitNodeCap, "mullvad"]⟩

/-- A located mullvad peer that is also the suggested exit node. -/
def cexPeer : PeerStatus :=
  ⟨"n1", "seattle.ts.net", true, true, some ⟨"US", "USA", "sea", "Seattle", 1⟩⟩

/-- Status whose active exit node is the mullvad peer. -/
def cexStatus : Status := ⟨some cexSelf, some ⟨"n1"⟩, [cexPeer]⟩

/-- The suggestion returned for the same peer. -/
def cexSugg : SuggestionResult :=
  ⟨"n1", "seattle.ts.net", some ⟨"US", "USA", "sea", "Seattle", 1⟩⟩

/-- **C3, counterexample.** Two sibling entries of the exit-node menu are
both checked: when the suggested exit node is also the active mullvad exit
node, the Recommended entry and the location-based root entry (siblings
directly under "Exit Nodes") are checked simultaneously, so the checked
entries do not form a single root-to-leaf path. -/
theorem renderExitNodeMenu_two_siblings_checked :
    ((renderExitNodeMenu (some cexStatus) (some cexSugg)).bind
        ExitNodeMenu.recommended).map RecommendedEntry.checked = some true ∧
    ((renderExitNodeMenu (some cexStatus) (some cexSugg)).bind
        ExitNodeMenu.mullvad).map Prod.fst = some true := by
  decide

end Systray

namespace Systray

theorem matchesExit_iff (e : Option ExitNodeStatusInfo) (id : String) :
    matchesExit e id = true ↔ ∃ en, e = some en ∧ en.id = id := by
  rcases e with _ | en
  · simp [matchesExit]
  · simp only [matchesExit]
    constructor
    · intro h
      exact ⟨en, rfl, of_decide_eq_true h⟩
    · rintro ⟨en2, hen2, hid⟩
      obtain rfl := Option.some_inj.mp hen2
      exact decide_eq_true hid

theorem renderCountry_checked (e : Option ExitNodeStatusInfo) (c : MvCountry) :
    (renderCountry e c).checked = countryHasActive e c := by
  unfold renderCountry
  split <;> rfl

theorem renderCountry_cities_checked (e : Option ExitNodeStatusInfo) (c : MvCountry) :
    ∀ city ∈ (renderCountry e c).cities,
      ∃ mc, (∃ kc, (kc, mc) ∈ c.cities) ∧ city.checked = cityHasActive e mc := by
  unfold renderCountry
  split
  · simp
  · intro city hc
    simp only at hc
    obtain ⟨mc, hmc, rfl⟩ := List.mem_map.mp hc
    rw [sortedCities, mem_sortByName] at hmc
    obtain ⟨⟨kc, mc'⟩, hmem, rfl⟩ := List.mem_map.mp hmc
    exact ⟨mc', ⟨kc, hmem⟩, rfl⟩

theorem countryHasActive_iff (en : ExitNodeStatusInfo) (c : MvCountry) :
    countryHasActive (some en) c = true ↔
      ∃ ec ∈ c.cities, ∃ ps ∈ ec.2.peers, ps.id = en.id := by
  simp [countryHasActive]

theorem cityHasActive_iff (en : ExitNodeStatusInfo) (mc : MvCity) :
    cityHasActive (some en) mc = true ↔ ∃ ps ∈ mc.peers, ps.id = en.id := by
  simp [cityHasActive]

end Systray

namespace Systray

/-- A checked country holds a status peer with the active id, located in
that country. -/
theorem countryHasActive_witness (status : Status) (en : ExitNodeStatusInfo)
    (cc : String) (c : MvCountry)
    (hc : (cc, c) ∈ (newMullvadPeers status).countries)
    (h : countryHasActive (some en) c = true) :
    ∃ ps ∈ status.peer, ps.id = en.id ∧ ps.exitNodeOption = true ∧
      ∃ loc, ps.location = some loc ∧ loc.countryCode = cc := by
  obtain ⟨ec, hec, ps, hps, hid⟩ := (countryHasActive_iff en c).mp h
  obtain ⟨hmem, hopt, loc, hloc, hccc, _⟩ :=
    mem_bucket_peer status cc c hc ec.1 ec.2 (by exact hec) ps hps
  exact ⟨ps, hmem, hid, hopt, loc, hloc, hccc⟩

/-- Distinct countries of the taxonomy are never both checked, given
distinct peer ids in the status. -/
theorem countries_pairwise_active (status : Status) (e : Option ExitNodeStatusInfo)
    (hnd : (status.peer.map PeerStatus.id).Nodup) :
    (newMullvadPeers status).countries.Pairwise fun e1 e2 =>
      ¬(countryHasActive e e1.2 = true ∧ countryHasActive e e2.2 = true) := by
  rcases e with _ | en
  · exact List.Pairwise.imp_of_mem
      (fun _ _ _ => by simp [countryHasActive])
      ((List.pairwise_map).mp (newMullvadPeers_keys_nodup status))
  · refine List.Pairwise.imp_of_mem ?_
      ((List.pairwise_map).mp (newMullvadPeers_keys_nodup status))
    intro e1 e2 h1 h2 hne ⟨ha1, ha2⟩
    obtain ⟨ps1, hm1, hid1, _, loc1, hloc1, hcc1⟩ :=
      countryHasActive_witness status en e1.1 e1.2 (by exact h1) ha1
    obtain ⟨ps2, hm2, hid2, _, loc2, hloc2, hcc2⟩ :=
      countryHasActive_witness status en e2.1 e2.2 (by exact h2) ha2
    obtain rfl : ps1 = ps2 :=
      List.inj_on_of_nodup_map hnd hm1 hm2 (hid1.trans hid2.symm)
    rw [hloc1] at hloc2
    obtain rfl := Option.some_inj.mp hloc2
    exact hne (hcc1 ▸ hcc2 ▸ rfl)

/-- Distinct cities of one country are never both checked, given distinct
peer ids in the status. -/
theorem cities_pairwise_active (status : Status) (e : Option ExitNodeStatusInfo)
    (hnd : (status.peer.map PeerStatus.id).Nodup)
    (cc : String) (c : MvCountry)
    (hc : (cc, c) ∈ (newMullvadPeers status).countries) :
    c.cities.Pairwise fun ec1 ec2 =>
      ¬(cityHasActive e ec1.2 = true ∧ cityHasActive e ec2.2 = true) := by
  have hknd := (newMullvadPeers_mvInv status _ hc).1
  rcases e with _ | en
  · exact List.Pairwise.imp_of_mem
      (fun _ _ _ => by simp [cityHasActive])
      ((List.pairwise_map).mp hknd)
  · refine List.Pairwise.imp_of_mem ?_ ((List.pairwise_map).mp hknd)
    intro ec1 ec2 h1 h2 hne ⟨ha1, ha2⟩
    obtain ⟨ps1, hps1, hid1⟩ := (cityHasActive_iff en ec1.2).mp ha1
    obtain ⟨ps2, hps2, hid2⟩ := (cityHasActive_iff en ec2.2).mp ha2
    obtain ⟨hm1, _, loc1, hloc1, _, hkc1⟩ :=
      mem_bucket_peer status cc c hc ec1.1 ec1.2 (by exact h1) ps1 hps1
    obtain ⟨hm2, _, loc2, hloc2, _, hkc2⟩ :=
      mem_bucket_peer status cc c hc ec2.1 ec2.2 (by exact h2) ps2 hps2
    obtain rfl : ps1 = ps2 :=
      List.inj_on_of_nodup_map hnd hm1 hm2 (hid1.trans hid2.symm)
    rw [hloc1] at hloc2
    obtain rfl := Option.some_inj.mp hloc2
    exact hne (hkc1 ▸ hkc2 ▸ rfl)

end Systray

namespace Systray

/-- **C3, amended.** For a status with distinct peer ids: the "None" entry
is checked iff no exit node is set; with no exit node set, nothing else is
checked; the checked entries of the None/tailnet/location sections form at
most one root-to-leaf path (no two tailnet entries, no tailnet entry
together with the location tree, no two countries, and no two cities of one
country are simultaneously checked, and a checked city's country and the
location root are checked); the Recommended entry, however, is checked
independently, exactly when its target is the active exit-node id, possibly
alongside the checked tailnet or location entry of the same peer. -/
theorem renderExitNodeMenu_checked_path (status : Status) (sugg : Option SuggestionResult)
    (m : ExitNodeMenu)
    (hnd : (status.peer.map PeerStatus.id).Nodup)
    (hm : renderExitNodeMenu (some status) sugg = some m) :
    (m.noneChecked = true ↔ status.exitNodeStatus = none) ∧
    (∀ r, m.recommended = some r →
      (r.checked = true ↔ ∃ en, status.exitNodeStatus = some en ∧ en.id = r.target)) ∧
    (status.exitNodeStatus = none →
      (∀ t ∈ m.tailnet, t.checked = false) ∧
      (∀ p, m.mullvad = some p → p.1 = false ∧
        ∀ ce ∈ p.2, ce.checked = false ∧ ∀ city ∈ ce.cities, city.checked = false)) ∧
    (m.tailnet.Pairwise fun a b => ¬(a.checked = true ∧ b.checked = true)) ∧
    (∀ t ∈ m.tailnet, t.checked = true → ∀ p, m.mullvad = some p → p.1 = false) ∧
    (∀ p, m.mullvad = some p →
      (p.1 = true ↔ ∃ ce ∈ p.2, ce.checked = true) ∧
      (p.2.Pairwise fun a b => ¬(a.checked = true ∧ b.checked = true)) ∧
      (∀ ce ∈ p.2, (ce.checked = false → ∀ city ∈ ce.cities, city.checked = false) ∧
        (ce.cities.Pairwise fun a b => ¬(a.checked = true ∧ b.checked = true)))) := by
  rcases hself : status.self with _ | self
  · simp [renderExitNodeMenu, hself] at hm
  simp only [renderExitNodeMenu, hself] at hm
  obtain rfl := Option.some_inj.mp hm
  refine ⟨?_, ?_, ?_, ?_, ?_, ?_⟩
  · -- None is checked iff no exit node is set
    simp [Option.isNone_iff_eq_none]
  · -- Recommended is checked iff it targets the active id
    intro r hr
    simp only at hr
    by_cases hcap : self.capMap.contains suggestExitNodeCap = true
    · rw [if_pos hcap] at hr
      rcases sugg with _ | s
      · cases hr
      · obtain rfl := Option.some_inj.mp hr
        exact matchesExit_iff status.exitNodeStatus s.id
    · rw [if_neg hcap] at hr
      cases hr
  · -- with no exit node set, nothing is checked
    intro hex
    constructor
    · intro t ht
      simp only at ht
      obtain ⟨ps, _, rfl⟩ := List.mem_map.mp ht
      rw [hex]
      rfl
    · intro p hp
      simp only at hp
      by_cases hcap2 : self.capMap.contains "mullvad" = true
      · rw [if_pos hcap2] at hp
        split at hp
        · obtain rfl := Option.some_inj.mp hp
          constructor
          · simp [hex, countryHasActive]
          · intro ce hce
            obtain ⟨c, _, rfl⟩ := List.mem_map.mp hce
            constructor
            · rw [renderCountry_checked, hex]
              rfl
            · intro city hcity
              obtain ⟨mc, _, hch⟩ := renderCountry_cities_checked _ _ city hcity
              rw [hch, hex]
              rfl
        · cases hp
      · rw [if_neg hcap2] at hp
        simp at hp
  · -- at most one tailnet entry is checked
    simp only
    rw [List.pairwise_map]
    have hndf : ((status.peer.filter fun ps =>
        ps.exitNodeOption && ps.location.isNone).map PeerStatus.id).Nodup :=
      ((List.filter_sublist status.peer).map PeerStatus.id).nodup hnd
    refine List.Pairwise.imp ?_ ((List.pairwise_map).mp hndf)
    intro a b hne ⟨ha, hb⟩
    obtain ⟨en1, he1, hid1⟩ := (matchesExit_iff _ _).mp ha
    obtain ⟨en2, he2, hid2⟩ := (matchesExit_iff _ _).mp hb
    rw [he1] at he2
    obtain rfl := Option.some_inj.mp he2
    exact hne (hid1.symm.trans hid2)
  · -- a checked tailnet entry excludes the location tree
    intro t ht hcheck p hp
    simp only at ht hp
    obtain ⟨ps, hpsf, rfl⟩ := List.mem_map.mp ht
    obtain ⟨en, hex, hid⟩ := (matchesExit_iff _ _).mp hcheck
    by_cases hcap2 : self.capMap.contains "mullvad" = true
    · rw [if_pos hcap2] at hp
      split at hp
      · obtain rfl := Option.some_inj.mp hp
        simp only
        rw [hex]
        by_contra hroot
        rw [Bool.not_eq_false, List.any_eq_true] at hroot
        obtain ⟨ec, hec, hact⟩ := hroot
        obtain ⟨ps2, hm2, hid2, _, loc2, hloc2, _⟩ :=
          countryHasActive_witness status en ec.1 ec.2 (by exact hec) hact
        obtain rfl : ps = ps2 :=
          List.inj_on_of_nodup_map hnd (List.mem_of_mem_filter hpsf) hm2
            (hid.symm.trans hid2.symm)
        have := (List.mem_filter.mp hpsf).2
        rw [hloc2] at this
        simp at this
      · cases hp
    · rw [if_neg hcap2] at hp
      simp at hp
  · -- the location tree is checked along a single path
    intro p hp
    simp only at hp
    by_cases hcap2 : self.capMap.contains "mullvad" = true
    swap
    · rw [if_neg hcap2] at hp
      simp at hp
    rw [if_pos hcap2] at hp
    split at hp
    swap
    · cases hp
    obtain rfl := Option.some_inj.mp hp
    refine ⟨?_, ?_, ?_⟩
    · -- root checked iff some country is checked
      simp only
      rw [List.any_eq_true]
      constructor
      · rintro ⟨ec, hec, hact⟩
        refine ⟨renderCountry status.exitNodeStatus ec.2, ?_, ?_⟩
        · exact List.mem_map.mpr ⟨ec.2, (mem_sortByName _ _ _).mpr
            (List.mem_map.mpr ⟨ec, hec, rfl⟩), rfl⟩
        · rw [renderCountry_checked]
          exact hact
      · rintro ⟨ce, hce, hch⟩
        obtain ⟨c, hc, rfl⟩ := List.mem_map.mp hce
        rw [sortedCountries, mem_sortByName] at hc
        obtain ⟨ec, hec, rfl⟩ := List.mem_map.mp hc
        rw [renderCountry_checked] at hch
        exact ⟨ec, hec, hch⟩
    · -- no two countries are both checked
      simp only
      rw [List.pairwise_map, sortedCountries]
      rw [(perm_sortByName _ _).pairwise_iff (fun h hxy => h ⟨hxy.2, hxy.1⟩)]
      rw [List.pairwise_map]
      refine List.Pairwise.imp ?_ (countries_pairwise_active status status.exitNodeStatus hnd)
      intro e1 e2 hne ⟨h1, h2⟩
      rw [renderCountry_checked] at h1 h2
      exact hne ⟨h1, h2⟩
    · -- within a country: checked cities propagate up and are unique
      intro ce hce
      obtain ⟨c, hc, rfl⟩ := List.mem_map.mp hce
      rw [sortedCountries, mem_sortByName] at hc
      obtain ⟨ec, hec, rfl⟩ := List.mem_map.mp hc
      constructor
      · intro hunch city hcity
        obtain ⟨mc, ⟨kc, hmc⟩, hch⟩ := renderCountry_cities_checked _ _ city hcity
        rw [hch]
        by_contra hcb
        rw [Bool.not_eq_false] at hcb
        rcases hexs : status.exitNodeStatus with _ | en
        · rw [hexs] at hcb
          simp [cityHasActive] at hcb
        · rw [hexs] at hcb
          obtain ⟨ps, hps, hid⟩ := (cityHasActive_iff en mc).mp hcb
          rw [renderCountry_checked, hexs] at hunch
          rw [Bool.eq_false_iff] at hunch
          exact hunch ((countryHasActive_iff en ec.2).mpr ⟨(kc, mc), hmc, ps, hps, hid⟩)
      · unfold renderCountry
        split
        · simp
        · simp only
          rw [List.pairwise_map, sortedCities]
          rw [(perm_sortByName _ _).pairwise_iff (fun h hxy => h ⟨hxy.2, hxy.1⟩)]
          rw [List.pairwise_map]
          refine List.Pairwise.imp ?_
            (cities_pairwise_active status status.exitNodeStatus hnd ec.1 ec.2 (by exact hec))
          intro ec1 ec2 hne ⟨h1, h2⟩
          exact hne ⟨h1, h2⟩

end Systray

namespace Systray

/-- The menu rendered for the counterexample status. -/
def cexMenu : ExitNodeMenu :=
  { noneChecked := false, recommended := some ⟨true, "n1"⟩, tailnet := [],
    mullvad := some (true, [⟨"US", "USA", true, none, [], some "n1"⟩]) }

/-- Witness for `renderExitNodeMenu_checked_path` at the concrete
counterexample status. -/
theorem renderExitNodeMenu_checked_path_witness :
    cexMenu.noneChecked = true ↔ cexStatus.exitNodeStatus = none :=
  (renderExitNodeMenu_checked_path cexStatus (some cexSugg) cexMenu
    (by decide) (by decide)).1

/-! ## The event loop (`Menu.eventLoop`) and the IPN-bus watcher -/

/-- The icons the loop sets. -/
inductive AppIcon
  | loading
  | connected
  | disconnected
  deriving Repr, DecidableEq

/-- One observable step the state-change arm of the event loop performs, in
order. `rebuildMenu` stands for `menu.rebuild(fetchState(ctx))`: re-fetch
the snapshot and rebuild the whole menu (taxonomy included). -/
inductive Effect
  | setIcon (i : AppIcon)
  | rebuildMenu
  | setConnectTitle (s : String)
  | connectEnable
  | connectDisable
  | disconnectShow
  | disconnectHide
  | disconnectEnable
  deriving Repr, DecidableEq

/-- `ipn.State`. -/
inductive IpnState
  | noState
  | inUseOtherUser
  | needsLogin
  | needsMachineAuth
  | stopped
  | starting
  | running
  deriving Repr, DecidableEq

/-- The `case state := <-chState` switch of `Menu.eventLoop`. -/
def handleStateChange : IpnState → List Effect
  | .running =>
      [.setIcon .loading, .rebuildMenu, .setIcon .connected,
       .setConnectTitle "Connected", .connectDisable, .disconnectShow, .disconnectEnable]
  | .noState | .stopped =>
      [.setConnectTitle "Connect", .connectEnable, .disconnectHide,
       .setIcon .disconnected]
  | .starting => [.setIcon .loading]
  | _ => []

/-- An effect that only touches displayed labels, icons, enablement or
visibility (no rebuild, no daemon command). -/
def isDisplayUpdate : Effect → Bool
  | .rebuildMenu => false
  | _ => true

/-- **C5.** Running triggers a full rebuild plus connect/disconnect
enablement changes and the connected icon; NoState and Stopped perform only
label/icon/visibility updates and no rebuild; Starting performs only the
loading-icon update. -/
theorem handleStateChange_spec :
    (Effect.rebuildMenu ∈ handleStateChange .running ∧
      Effect.setIcon .connected ∈ handleStateChange .running ∧
      Effect.connectDisable ∈ handleStateChange .running ∧
      Effect.disconnectShow ∈ handleStateChange .running ∧
      Effect.disconnectEnable ∈ handleStateChange .running) ∧
    ((handleStateChange .noState).all isDisplayUpdate ∧
      Effect.rebuildMenu ∉ handleStateChange .noState ∧
      handleStateChange .noState = handleStateChange .stopped ∧
      (handleStateChange .stopped).all isDisplayUpdate ∧
      Effect.rebuildMenu ∉ handleStateChange .stopped) ∧
    handleStateChange .starting = [.setIcon .loading] := by
  decide

/-- The masked-preference fields the loop sends (`ipn.Prefs` restricted to
the fields it sets). -/
structure Prefs where
  wantRunning : Bool := false
  exitNodeID : String := ""
  deriving Repr, DecidableEq

/-- `ipn.MaskedPrefs`: a partial prefs record plus per-field set flags. -/
structure MaskedPrefs where
  prefs : Prefs := {}
  wantRunningSet : Bool := false
  exitNodeIDSet : Bool := false
  deriving Repr, DecidableEq

/-- A daemon command the event loop can issue. -/
inductive DaemonCmd
  | editPrefs (mp : MaskedPrefs)
  | setUseExitNode (enabled : Bool)
  | switchProfile (id : String)
  deriving Repr, DecidableEq

/-- One observable action of an interaction arm of the event loop. -/
inductive LoopAction
  | cmd (c : DaemonCmd)
  | logError
  | rebuildMenu
  deriving Repr, DecidableEq

/-- Whether an action is a daemon command. -/
def LoopAction.isCmd : LoopAction → Bool
  | .cmd _ => true
  | _ => false

/-- The `case exitNode := <-menu.exitNodeCh` arm: clear the exit node for
the zero id, else a masked preference update setting `ExitNodeID`; on error
only log; then rebuild unconditionally. `ok` is whether the daemon call
succeeded. -/
def handleExitNodeSelected (exitNode : String) (ok : Bool) : List LoopAction :=
  (if exitNode = "" then
    [.cmd (.setUseExitNode false)] ++ (if ok then [] else [.logError])
  else
    [.cmd (.editPrefs { prefs := { exitNodeID := exitNode }, exitNodeIDSet := true })] ++
      (if ok then [] else [.logError])) ++ [.rebuildMenu]

/-- **C6.** On an exit-node selection the loop issues exactly one daemon
command — the distinct clear operation for the zero id, otherwise a masked
preference update setting the target id with its set flag — and rebuilds
unconditionally, also when the command failed (failure is only logged). -/
theorem handleExitNodeSelected_spec (exitNode : String) (ok : Bool) :
    ((handleExitNodeSelected exitNode ok).filter LoopAction.isCmd =
      [if exitNode = "" then .cmd (.setUseExitNode false)
       else .cmd (.editPrefs { prefs := { exitNodeID := exitNode }, exitNodeIDSet := true })]) ∧
    (handleExitNodeSelected exitNode ok).getLast? = some .rebuildMenu ∧
    (.logError ∈ handleExitNodeSelected exitNode ok ↔ ok = false) := by
  by_cases hz : exitNode = ""
  · rcases ok with _ | _ <;>
      simp [handleExitNodeSelected, hz, List.filter, LoopAction.isCmd]
  · rcases ok with _ | _ <;>
      simp [handleExitNodeSelected, hz, List.filter, LoopAction.isCmd]

/-- The two kinds of error `watchIPNBusInner` can return, according to
whether `errors.Is(err, context.Canceled)` holds. -/
inductive WatchErr
  | canceled
  | other
  deriving Repr, DecidableEq

/-- What one iteration of `watchIPNBus`'s retry loop does next. -/
inductive WatchStep
  | fatalExit
  | retryAfterSleep (seconds : Nat)
  deriving Repr, DecidableEq

/-- One iteration of `watchIPNBus`: returns whether the error was logged
and what happens next. A canceled error is fatal (the process exits); any
other error is logged and retried after the fixed 3-second sleep; a nil
return just sleeps and retries. -/
def watchIPNBusStep : Option WatchErr → Bool × WatchStep
  | none => (false, .retryAfterSleep 3)
  | some .canceled => (true, .fatalExit)
  | some .other => (true, .retryAfterSleep 3)

/-- The retry loop of `watchIPNBus`, run over a finite prefix of the inner
watcher's results: the number of sleep-and-reconnect iterations performed
and whether the loop ended the process. -/
def runWatch : List (Option WatchErr) → Nat × Bool
  | [] => (0, false)
  | e :: rest =>
    match watchIPNBusStep e with
    | (_, .fatalExit) => (0, true)
    | (_, .retryAfterSleep _) => ((runWatch rest).1 + 1, (runWatch rest).2)

/-- **C7.** After any subscription or read error the watcher logs, and
retries after the fixed 3-second delay — except a cancellation error, which
terminates the process instead of retrying; hence the retry loop is
unbounded: it ends only when a cancellation error occurs. -/
theorem watchIPNBusStep_spec (e : WatchErr) (errs : List (Option WatchErr)) :
    ((watchIPNBusStep (some e)).1 = true ∧
      (watchIPNBusStep (some e)).2 =
        (if e = .canceled then .fatalExit else .retryAfterSleep 3)) ∧
    ((runWatch errs).2 = true ↔ some WatchErr.canceled ∈ errs) := by
  refine ⟨⟨?_, ?_⟩, ?_⟩
  · rcases e with _ | _ <;> rfl
  · rcases e with _ | _ <;> rfl
  · induction errs with
    | nil => simp [runWatch]
    | cons e0 rest ih =>
      rcases e0 with _ | e0
      · simpa [runWatch, watchIPNBusStep] using ih
      · rcases e0 with _ | _
        · simp [runWatch, watchIPNBusStep]
        · simpa [runWatch, watchIPNBusStep] using ih

end Systray
